import Mathlib

/-!
Verification of the embedding-indexed document store of `backend/vector_store.py`
(`SimpleVectorStore`): data model, add/delete/search/get_document_content,
snapshot load/save, and the degraded-fallback embedding.

Modelling conventions (shallow embedding):
* Python floats are idealised as exact numbers.  Vector components are `ℚ`.
  The one place where IEEE semantics matters — the cosine-similarity division
  `dot / (‖row‖·‖query‖)`, whose denominator involves irrational square roots
  and can be zero — is represented symbolically by `SimVal`: either `nan`
  (the IEEE result of `0/0`, which is what numpy produces when a row or the
  query has zero norm, since the dot product is then also zero, see
  `dot_eq_zero_of_normSq_left/right`) or `val a x` denoting the real number
  `a / Real.sqrt x` with `x > 0`.  The comparison `simLE` used to model
  `np.argsort` is proved to agree with the real-number order on such values
  (`simLE_correct`), and to place `nan` last in ascending order, as numpy's
  sort does.
* `np.argsort(similarities)` is modelled as a stable ascending sort of the
  index list (numpy's `kind='stable'` behaviour; the default introsort has
  unspecified tie order, so the stable model is the deterministic reading).
* Python `dict` (insertion-ordered, unique keys) is an association list;
  `dictInsert` replaces in place or appends, like `d[k] = v`.
* Fallible operations (the embedding provider, `documents[key]` lookups)
  return `Except`; a `.error` models a raised Python exception.
* The `disk` field models the contents of `documents.json` as last written by
  `_save` (the record list, in `documents.values()` order); byte-level write
  behaviour and crash safety are modelled separately by `FsOp`/`applyCrash`.
-/

/-- Python values stored in a record's `metadata` dict (the code only ever
puts strings and the integer `chunk_index` there). -/
inductive PyVal where
  | vStr (s : String)
  | vInt (n : ℤ)
deriving DecidableEq, Repr

/-- Insertion-ordered string-keyed dictionary, as Python's `dict`. -/
abbrev Dict (α : Type) : Type := List (String × α)

/-- `d[k] = v`: replace the entry in place if the key is present
(Python dicts keep the original position), else append. -/
def dictInsert (d : Dict α) (k : String) (v : α) : Dict α :=
  if d.any (fun p => p.1 == k) then
    d.map (fun p => if p.1 == k then (k, v) else p)
  else d ++ [(k, v)]

/-- `d.get(k)` returning `none` when absent. -/
def dictGet? (d : Dict α) (k : String) : Option α :=
  List.lookup k d

/-- One stored chunk record (the `Document` dataclass). -/
structure Document where
  id : String
  doc_id : String
  content : String
  embedding : List ℚ
  metadata : Dict PyVal
  created_at : String
deriving DecidableEq, Repr

/-- The mutable state of a `SimpleVectorStore` instance: the record dict, the
rebuilt embedding matrix (`None` when empty), the aligned id list, and the
logical contents of the `documents.json` snapshot as last written. -/
structure SimpleVectorStore where
  documents : Dict Document
  embeddings : Option (List (List ℚ))
  doc_ids : List String
  disk : Option (List Document)
deriving DecidableEq, Repr

/-- A store as freshly constructed before `_load` (`documents = {}`,
`embeddings = None`, `doc_ids = []`). -/
def emptyStore : SimpleVectorStore :=
  { documents := [], embeddings := none, doc_ids := [], disk := none }

/-- `_rebuild_index`: reset `doc_ids` to the dict's key order and the matrix
to the embeddings in that same order; `None`/`[]` when the dict is empty. -/
def SimpleVectorStore.rebuild_index (s : SimpleVectorStore) : SimpleVectorStore :=
  if s.documents.isEmpty then
    { s with embeddings := none, doc_ids := [] }
  else
    { s with doc_ids := s.documents.map (fun p => p.1),
             embeddings := some (s.documents.map (fun p => p.2.embedding)) }

/-- The matrix rows (`[]` when `embeddings is None`). -/
def SimpleVectorStore.rows (s : SimpleVectorStore) : List (List ℚ) :=
  s.embeddings.getD []

/-- `_save`: rewrite the snapshot with every current record, in
`documents.values()` order. -/
def SimpleVectorStore.save (s : SimpleVectorStore) : SimpleVectorStore :=
  { s with disk := some (s.documents.map (fun p => p.2)) }

/-- `f"{doc_id}_chunk_{i}"`. -/
def chunkId (docId : String) (i : ℕ) : String :=
  docId ++ "_chunk_" ++ toString i

/-- The record built for chunk `i` of a batch: metadata is the caller's dict
plus `chunk_index = i` (`{**metadata, "chunk_index": i}`). -/
def mkChunk (docId : String) (i : ℕ) (text : String) (emb : List ℚ)
    (metadata : Dict PyVal) (now : String) : Document :=
  { id := chunkId docId i
    doc_id := docId
    content := text
    embedding := emb
    metadata := dictInsert metadata "chunk_index" (.vInt i)
    created_at := now }

/-- The loop body of `add`: embed each text in order and insert its record.
Returns the dict as mutated so far, the running `added` count, and the first
embedding error if one occurred (a raised exception leaves the dict mutated
in place, which is exactly what the Python loop does to `self.documents`). -/
def addLoop (embed : String → Except String (List ℚ)) (docId : String)
    (metadata : Dict PyVal) (now : String) :
    List String → ℕ → Dict Document → Dict Document × ℕ × Option String
  | [], _, docs => (docs, 0, none)
  | t :: ts, i, docs =>
    match embed t with
    | .error e => (docs, 0, some e)
    | .ok v =>
      let d := mkChunk docId i t v metadata now
      let r := addLoop embed docId metadata now ts (i + 1) (dictInsert docs d.id d)
      (r.1, r.2.1 + 1, r.2.2)

/-- `add(doc_id, texts, metadata)`: insert one record per text; on success
rebuild the index, save, and return the count; if embedding raises, the
exception propagates with the dict left partially mutated and the index and
snapshot untouched.  `embed` stands for `self._get_embedding`, `now` for
`datetime.now().isoformat()`. -/
def SimpleVectorStore.add (s : SimpleVectorStore)
    (embed : String → Except String (List ℚ)) (docId : String)
    (texts : List String) (metadata : Dict PyVal) (now : String) :
    SimpleVectorStore × Except String ℕ :=
  match addLoop embed docId metadata now texts 0 s.documents with
  | (docs, _, some e) => ({ s with documents := docs }, .error e)
  | (docs, added, none) =>
    (({ s with documents := docs }).rebuild_index.save, .ok added)

/-- `delete_by_doc_id`: drop every record whose `doc_id` matches; rebuild and
save only when something was removed; `False` on an unknown group. -/
def SimpleVectorStore.delete_by_doc_id (s : SimpleVectorStore) (docId : String) :
    SimpleVectorStore × Bool :=
  let toDelete := (s.documents.filter (fun p => p.2.doc_id == docId)).map (fun p => p.1)
  if toDelete.isEmpty then (s, false)
  else
    (({ s with
        documents := s.documents.filter (fun p => ¬ p.2.doc_id == docId) }).rebuild_index.save,
     true)

/-! ### Cosine similarity and `np.argsort` -/

/-- `np.dot(row, q)` (zip-wise product sum). -/
def dot (xs ys : List ℚ) : ℚ :=
  (List.zipWith (· * ·) xs ys).sum

/-- The squared euclidean norm, so that `np.linalg.norm v = Real.sqrt (normSq v)`. -/
def normSq (xs : List ℚ) : ℚ :=
  (xs.map (fun x => x * x)).sum

/-- A float similarity value: `nan`, or `val a x` denoting `a / Real.sqrt x`
(in use always with `x > 0`). -/
inductive SimVal where
  | nan
  | val (num : ℚ) (denSq : ℚ)
deriving DecidableEq, Repr

/-- A rational key order-isomorphic to `a / Real.sqrt x` for `x > 0`:
the strictly monotone map `t ↦ sign t · t²` applied symbolically
(`(a/√x)² = a²/x`).  Proved against the real order in `simLE_correct`. -/
def ratKey (a x : ℚ) : ℚ :=
  if 0 ≤ a then a ^ 2 / x else -(a ^ 2 / x)

/-- The float `≤` used by the model of `np.argsort`: `nan` compares as the
largest value (numpy sorts NaN to the end in ascending order). -/
def simLE : SimVal → SimVal → Bool
  | _, .nan => true
  | .nan, .val _ _ => false
  | .val a x, .val b y => ratKey a x ≤ ratKey b y

/-- The float value `dot(row,q) / (‖row‖·‖q‖)`.  When either norm is zero the
numerator is zero as well, so IEEE division yields `0/0 = NaN`; otherwise the
exact real value is `dot / √(normSq row · normSq q)`. -/
def cosineSim (row q : List ℚ) : SimVal :=
  if normSq row * normSq q = 0 then .nan
  else .val (dot row q) (normSq row * normSq q)

/-- Stable insertion step: place `x` after every element strictly below it,
so that ties keep their original relative order. -/
def sInsert (le : α → α → Bool) (x : α) : List α → List α
  | [] => [x]
  | y :: ys => if le y x && ! le x y then y :: sInsert le x ys else x :: y :: ys

/-- Stable ascending sort.  For a total transitive `le` the result of a
stable sort is unique, so this models both numpy's stable `argsort` order
and Python's `list.sort`. -/
def sSort (le : α → α → Bool) : List α → List α
  | [] => []
  | x :: xs => sInsert le x (sSort le xs)

/-- `np.argsort(sims)`: the indices `0..n-1` stably sorted ascending by the
float order `simLE`. -/
def argsort (sims : List SimVal) : List ℕ :=
  sSort (fun i j => simLE (sims.getD i .nan) (sims.getD j .nan))
    (List.range sims.length)

/-- Python list slicing `l[:k]` for an `int` bound (negative bounds count
from the end). -/
def pySlice (k : ℤ) (l : List α) : List α :=
  if 0 ≤ k then l.take k.toNat else l.take ((l.length : ℤ) + k).toNat

/-- One entry of a search result. -/
structure SearchResult where
  content : String
  metadata : Dict PyVal
  similarity : SimVal
deriving DecidableEq, Repr

/-- Errors `search` can raise: a propagated embedding failure, an
out-of-range `doc_ids[idx]`, or a missing `documents[doc_id]` key. -/
inductive SearchErr where
  | embed (e : String)
  | indexErr
  | keyErr
deriving DecidableEq, Repr

/-- The result-building loop of `search`: for each index, look up
`self.doc_ids[idx]` and `self.documents[doc_id]` and emit
`{content, metadata, similarity}`; a failed lookup raises. -/
def buildResults (s : SimpleVectorStore) (sims : List SimVal) :
    List ℕ → Except SearchErr (List SearchResult)
  | [] => .ok []
  | idx :: rest =>
    match s.doc_ids.get? idx with
    | none => .error .indexErr
    | some key =>
      match dictGet? s.documents key with
      | none => .error .keyErr
      | some doc =>
        match buildResults s sims rest with
        | .error e => .error e
        | .ok rs =>
          .ok ({ content := doc.content, metadata := doc.metadata,
                 similarity := sims.getD idx .nan } :: rs)

/-- `search(query, top_k)`: empty result on an empty store, else embed the
query, take cosine similarity against every row, rank by
`np.argsort(...)[::-1][:top_k]`, and build the result dicts. -/
def SimpleVectorStore.search (s : SimpleVectorStore)
    (embed : String → Except String (List ℚ)) (query : String) (topK : ℤ) :
    Except SearchErr (List SearchResult) :=
  match s.embeddings, s.documents with
  | none, _ => .ok []
  | some _, [] => .ok []
  | some rows, _ :: _ =>
    match embed query with
    | .error e => .error (.embed e)
    | .ok qv =>
      let sims := rows.map (fun r => cosineSim r qv)
      buildResults s sims (pySlice topK (argsort sims).reverse)

/-! ### `get_document_content` -/

/-- The dict returned by `get_document_content`; `chunks_detail` holds the
`{"index": …, "content": …}` entries as pairs. -/
structure DocContent where
  doc_id : String
  name : String
  chunks : ℕ
  full_content : String
  chunks_detail : List (ℤ × String)
deriving DecidableEq, Repr

/-- `metadata.get("chunk_index", 0)` read as an integer (records created by
this store always hold an integer there). -/
def chunkIndexOf (md : Dict PyVal) : ℤ :=
  match dictGet? md "chunk_index" with
  | some (.vInt n) => n
  | _ => 0

/-- `metadata.get("source", "Unknown")` read as a string. -/
def sourceOf (md : Dict PyVal) : String :=
  match dictGet? md "source" with
  | some (.vStr s) => s
  | _ => "Unknown"

/-- `get_document_content(doc_id)`: gather the group's `(chunk_index, content)`
pairs in storage order, return `None` when there are none, else sort them by
index ascending (Python's stable `list.sort`) and join the contents with a
blank line. -/
def SimpleVectorStore.get_document_content (s : SimpleVectorStore)
    (docId : String) : Option DocContent :=
  let members := (s.documents.map (fun p => p.2)).filter (fun d => d.doc_id == docId)
  let chunks := members.map (fun d => (chunkIndexOf d.metadata, d.content))
  match members.head? with
  | none => none
  | some first =>
    let sorted := sSort (fun a b => a.1 ≤ b.1) chunks
    some { doc_id := docId
           name := sourceOf first.metadata
           chunks := sorted.length
           full_content := String.intercalate "\n\n" (sorted.map (fun c => c.2))
           chunks_detail := sorted }

/-! ### `_load` -/

/-- One element of the parsed snapshot array: either a JSON object carrying
exactly the six `Document` fields (`Document(**doc_data)` succeeds) or
anything else (`Document(**doc_data)` raises). -/
inductive RawItem where
  | okItem (d : Document)
  | badItem
deriving DecidableEq, Repr

/-- The observable condition of `documents.json` at startup: absent,
present but not parsable by `json.load` (or not iterable into mappings —
observationally the same: nothing is inserted and the error is logged), or
parsed into an array of items. -/
inductive LoadInput where
  | noFile
  | badJson
  | parsed (items : List RawItem)
deriving DecidableEq, Repr

/-- The `for doc_data in data` loop: insert records until the first item on
which `Document(**doc_data)` raises; the `Bool` records whether it raised. -/
def loadLoop : List RawItem → Dict Document → Dict Document × Bool
  | [], docs => (docs, false)
  | .okItem d :: rest, docs => loadLoop rest (dictInsert docs d.id d)
  | .badItem :: _, docs => (docs, true)

/-- `_load` on a freshly constructed store: no file — stay empty; unreadable
file — log and stay empty; parsed array — insert records until the first bad
item, rebuilding the index only if the whole loop succeeded (the
`try/except` catches the exception after the partial inserts, so the method
never raises).  The `Bool` is whether the error path printed a log line. -/
def loadState (inp : LoadInput) : SimpleVectorStore × Bool :=
  match inp with
  | .noFile => (emptyStore, false)
  | .badJson => (emptyStore, true)
  | .parsed items =>
    match loadLoop items [] with
    | (docs, false) => (({ emptyStore with documents := docs }).rebuild_index, false)
    | (docs, true) => ({ emptyStore with documents := docs }, true)

/-! ### Byte-level write discipline of `_save` -/

/-- File-system operations a save routine may issue. -/
inductive FsOp where
  | write (path content : String)
  | rename (src dst : String)
deriving DecidableEq, Repr

/-- A file system: path to contents. -/
abbrev FileSys : Type := Dict String

/-- Effect of one completed operation. -/
def applyOp (fs : FileSys) : FsOp → FileSys
  | .write p c => dictInsert fs p c
  | .rename src dst =>
    match dictGet? fs src with
    | some c => dictInsert (fs.filter (fun q => ¬ q.1 == src)) dst c
    | none => fs

/-- Effect of a completed operation sequence. -/
def applyOps (fs : FileSys) (ops : List FsOp) : FileSys :=
  ops.foldl applyOp fs

/-- A crash while executing operation `i`: earlier operations completed; if
operation `i` is a `write`, opening with mode `"w"` truncated the file first
and only a prefix of the content reached the disk; a `rename` is atomic, so
a crash during it leaves the prior state. -/
def applyCrash (fs : FileSys) (ops : List FsOp) (i : ℕ) (written : ℕ) : FileSys :=
  let fs' := applyOps fs (ops.take i)
  match ops.get? i with
  | some (.write p c) => dictInsert fs' p (c.take written)
  | _ => fs'

/-- Abbreviated rendering of one record (the textual details of
`json.dump(..., ensure_ascii=False, indent=2)` are abstracted; only that the
payload is a function of the full record is used). -/
def dumpDoc (d : Document) : String :=
  "\x7b id: " ++ d.id ++ ", doc_id: " ++ d.doc_id ++ ", content: " ++ d.content
    ++ ", fields: " ++ toString (d.embedding.length) ++ " \x7d"

/-- The serialized snapshot: every record, in `documents.values()` order. -/
def dumpDocs (docs : List Document) : String :=
  "[" ++ String.intercalate ", " (docs.map dumpDoc) ++ "]"

/-- `os.path.join(self.persist_path, "documents.json")`. -/
def dataFilePath (persistPath : String) : String :=
  persistPath ++ "/documents.json"

/-- The operation sequence `_save` issues: a single direct `open(.., "w")` +
`json.dump` on the final path — no temporary file, no rename. -/
def saveOps (s : SimpleVectorStore) (persistPath : String) : List FsOp :=
  [.write (dataFilePath persistPath) (dumpDocs (s.documents.map (fun p => p.2)))]

/-! ### The degraded-fallback embedding (`_get_embedding` with no model) -/

/-- The fallback branch of `_get_embedding`, parametric in the environment:
`md5` is `int(hashlib.md5(text.encode()).hexdigest(), 16)`, `seedFn` is
`np.random.seed`, and `randn` draws `n` values from the seeded global
generator, returning the refreshed generator state.  The global generator
state is threaded explicitly. -/
def fallbackEmbedding (RngState : Type) (md5 : String → ℕ)
    (seedFn : ℕ → RngState) (randn : RngState → ℕ → List ℚ × RngState)
    (text : String) (_rng : RngState) : List ℚ × RngState :=
  randn (seedFn (md5 text % 2 ^ 32)) 384

/-- `_get_embedding`: delegate to the model when present, else fall back. -/
def getEmbedding (RngState : Type) (md5 : String → ℕ)
    (seedFn : ℕ → RngState) (randn : RngState → ℕ → List ℚ × RngState)
    (model : Option (String → List ℚ)) (text : String) (rng : RngState) :
    List ℚ × RngState :=
  match model with
  | some m => (m text, rng)
  | none => fallbackEmbedding RngState md5 seedFn randn text rng

deriving instance DecidableEq for Except

/-- A default document (used only as the `getD` fallback in specifications). -/
def dfltDoc : Document := ⟨"", "", "", [], [], ""⟩

/-- The record at position `i` of the store's insertion order. -/
def docAt (s : SimpleVectorStore) (i : ℕ) : Document :=
  (s.documents.getD i ("", dfltDoc)).2

/-- The state `_rebuild_index` establishes: `doc_ids` is the dict's key list
and the matrix rows are the embeddings in that same order (`None` iff the
dict is empty). -/
def IndexAligned (s : SimpleVectorStore) : Prop :=
  s.doc_ids = s.documents.map (fun p => p.1) ∧
  s.embeddings =
    (if s.documents.isEmpty then none
     else some (s.documents.map (fun p => p.2.embedding)))

/-- Value of a decimal digit character. -/
def decDigit (c : Char) : ℕ := c.toNat - Char.toNat '0'

/-- Decode a most-significant-first decimal digit string. -/
def decDigits (l : List Char) : ℕ :=
  l.foldl (fun a c => 10 * a + decDigit c) 0

/-- The similarity row vector `search` computes under an aligned index. -/
def simsOf (s : SimpleVectorStore) (qv : List ℚ) : List SimVal :=
  (s.documents.map (fun p => p.2.embedding)).map (fun r => cosineSim r qv)


/-! ### Concrete instances used to evaluate the model -/

/-- An embedder that always succeeds with the one-dimensional vector `[1]`. -/
def embedOne : String → Except String (List ℚ) := fun _ => .ok [1]

/-- An embedder that raises on the text `"B"` (a failing provider mid-batch). -/
def embedFailB : String → Except String (List ℚ) :=
  fun t => if t = "B" then .error "boom" else .ok [1]

/-- A record whose embedding is the zero vector. -/
def docZero : Document := ⟨"d_chunk_0", "d", "c", [0], [], "t"⟩

/-- A store holding only `docZero`, with its index rebuilt. -/
def storeZero : SimpleVectorStore :=
  ⟨[("d_chunk_0", docZero)], some [[0]], ["d_chunk_0"], none⟩

/-- A well-formed record as it would sit in a snapshot array. -/
def docGood : Document := ⟨"a", "g", "x", [1], [], "t"⟩

/-- The store produced by `_load` from a snapshot whose second array entry is
malformed: the first record is retained, the index is never rebuilt. -/
def storeCorrupt : SimpleVectorStore :=
  (loadState (.parsed [.okItem docGood, .badItem])).1

/-- The store after `add("g", ["A", "B"], {})` with the `[1]` embedder. -/
def storeAB : SimpleVectorStore :=
  (emptyStore.add embedOne "g" ["A", "B"] [] "t").1

/-! ### Stable-sort lemmas -/

theorem sInsert_perm (le : α → α → Bool) (x : α) (l : List α) :
    List.Perm (sInsert le x l) (x :: l) := by
  induction l with
  | nil => rfl
  | cons y ys ih =>
    by_cases h : (le y x && ! le x y) = true
    · simpa [sInsert, h] using ((ih.cons y).trans (List.Perm.swap x y ys))
    · simp [sInsert, h]

theorem sSort_perm (le : α → α → Bool) (l : List α) : List.Perm (sSort le l) l := by
  induction l with
  | nil => rfl
  | cons x xs ih => exact (sInsert_perm le x (sSort le xs)).trans (ih.cons x)

theorem mem_sSort (le : α → α → Bool) (l : List α) (a : α) :
    a ∈ sSort le l ↔ a ∈ l :=
  (sSort_perm le l).mem_iff

theorem length_sSort (le : α → α → Bool) (l : List α) :
    (sSort le l).length = l.length :=
  (sSort_perm le l).length_eq


theorem sInsert_pairwise (le : α → α → Bool)
    (total : ∀ a b, (le a b || le b a) = true)
    (trans : ∀ a b c, le a b = true → le b c = true → le a c = true)
    (x : α) (l : List α) (h : l.Pairwise (fun a b => le a b = true)) :
    (sInsert le x l).Pairwise (fun a b => le a b = true) := by
  induction l with
  | nil => simp [sInsert]
  | cons y ys ih =>
    rcases List.pairwise_cons.mp h with ⟨hy, hys⟩
    by_cases hc : (le y x && ! le x y) = true
    · rw [sInsert, if_pos hc]
      refine List.pairwise_cons.mpr ⟨?_, ih hys⟩
      intro z hz
      rcases List.mem_cons.mp ((sInsert_perm le x ys).mem_iff.mp hz) with hz' | hz'
      · exact hz' ▸ (Bool.and_eq_true_iff.mp hc).1
      · exact hy z hz'
    · rw [sInsert, if_neg hc]
      have hxy : le x y = true := by
        rcases Bool.or_eq_true_iff.mp (total x y) with h1 | h1
        · exact h1
        · by_contra h2
          exact hc (by simp [h1, Bool.not_eq_true _ ▸ h2, Bool.eq_false_iff.mpr h2])
      refine List.pairwise_cons.mpr ⟨?_, h⟩
      intro z hz
      rcases List.mem_cons.mp hz with hz' | hz'
      · exact hz' ▸ hxy
      · exact trans x y z hxy (hy z hz')

theorem sSort_pairwise (le : α → α → Bool)
    (total : ∀ a b, (le a b || le b a) = true)
    (trans : ∀ a b c, le a b = true → le b c = true → le a c = true)
    (l : List α) : (sSort le l).Pairwise (fun a b => le a b = true) := by
  induction l with
  | nil => simp [sSort]
  | cons x xs ih => exact sInsert_pairwise le total trans x (sSort le xs) ih

/-! ### Dictionary lemmas -/

theorem lookup_map_replace (d : Dict α) (k k' : String) (v : α) :
    List.lookup k (d.map fun p => if p.1 == k' then (k', v) else p) =
      (if k = k' then (if d.any (fun p => p.1 == k') then some v else none)
       else List.lookup k d) := by
  induction d with
  | nil => by_cases h : k = k' <;> simp [h]
  | cons p ps ih =>
    rcases p with ⟨pk, pv⟩
    by_cases hp : pk = k'
    · subst hp
      by_cases hk : k = pk
      · subst hk
        simp [List.lookup_cons, beq_iff_eq]
      · have hb : (k == pk) = false := beq_eq_false_iff_ne.mpr hk
        have hhead : List.map (fun p => if (p.1 == pk) = true then (pk, v) else p)
            ((pk, pv) :: ps) = (pk, v) :: List.map (fun p => if (p.1 == pk) = true then (pk, v) else p) ps := by
          simp
        rw [hhead, List.lookup_cons, hb, ih]
        simp [hk, List.lookup_cons, hb]
    · have hpb : (pk == k') = false := beq_eq_false_iff_ne.mpr hp
      have hhead : List.map (fun p => if (p.1 == k') = true then (k', v) else p)
          ((pk, pv) :: ps) = (pk, pv) :: List.map (fun p => if (p.1 == k') = true then (k', v) else p) ps := by
        simp [hpb, hp]
      by_cases hk : k = pk
      · subst hk
        rw [hhead, List.lookup_cons]
        simp [beq_self_eq_true, hp, List.lookup_cons]
      · have hb : (k == pk) = false := beq_eq_false_iff_ne.mpr hk
        rw [hhead, List.lookup_cons, hb, ih]
        have hany : (((pk, pv) :: ps).any fun p => p.1 == k') =
            (ps.any fun p => p.1 == k') := by
          simp [List.any_cons, hpb]
        rw [hany]
        simp [List.lookup_cons, hb]

theorem lookup_eq_none_of_any_eq_false (d : Dict α) (k : String)
    (h : d.any (fun p => p.1 == k) = false) : List.lookup k d = none := by
  rw [List.lookup_eq_none_iff]
  intro p hp
  have hne : ¬ p.1 = k := by
    intro he
    have hx : d.any (fun q => q.1 == k) = true :=
      List.any_eq_true.mpr ⟨p, hp, by simp [he]⟩
    simp [hx] at h
  simp [bne_iff_ne]
  exact fun he => hne he.symm

/-- Characterisation of Python `d[k'] = v` under `d.get(k)`. -/
theorem dictGet?_insert (d : Dict α) (k k' : String) (v : α) :
    dictGet? (dictInsert d k' v) k = if k = k' then some v else dictGet? d k := by
  rw [dictInsert, dictGet?]
  by_cases ha : d.any (fun p => p.1 == k') = true
  · rw [if_pos ha, lookup_map_replace, ha]
    by_cases hk : k = k' <;> simp [hk, dictGet?]
  · rw [if_neg ha, List.lookup_append]
    by_cases hk : k = k'
    · rw [hk, lookup_eq_none_of_any_eq_false d k' (Bool.eq_false_iff.mpr ha)]
      simp [List.lookup_cons]
    · have hkb : (k == k') = false := beq_eq_false_iff_ne.mpr hk
      simp [List.lookup_cons, hkb, hk, dictGet?]

theorem dictGet?_insert_self (d : Dict α) (k : String) (v : α) :
    dictGet? (dictInsert d k v) k = some v := by
  simp [dictGet?_insert]

theorem dictGet?_insert_ne (d : Dict α) (k k' : String) (v : α) (h : k ≠ k') :
    dictGet? (dictInsert d k' v) k = dictGet? d k := by
  simp [dictGet?_insert, h]

theorem dictInsert_keys_nodup (d : Dict α) (k : String) (v : α)
    (h : (d.map (fun p => p.1)).Nodup) :
    ((dictInsert d k v).map (fun p => p.1)).Nodup := by
  rw [dictInsert]
  by_cases ha : d.any (fun p => p.1 == k) = true
  · rw [if_pos ha]
    have heq : ((d.map fun p => if p.1 == k then (k, v) else p).map (fun p => p.1)) =
        d.map (fun p => p.1) := by
      rw [List.map_map]
      refine List.map_congr_left ?_
      intro p _
      by_cases hp : p.1 = k <;> simp [hp]
    rw [heq]
    exact h
  · rw [if_neg ha, List.map_append, List.nodup_append]
    refine ⟨h, by simp, ?_⟩
    intro a hamem hb
    simp only [List.map_cons, List.map_nil, List.mem_singleton] at hb
    rcases List.mem_map.mp hamem with ⟨p, hp, hpk⟩
    exact absurd (List.any_eq_true.mpr ⟨p, hp, by simp [hpk, hb]⟩) ha

/-- In a dict with distinct keys, looking up the key at position `i` returns
the value at position `i` (Python dict iteration order vs `d[k]` access). -/
theorem dictGet?_getElem (d : Dict α) (hnd : (d.map (fun p => p.1)).Nodup)
    (i : ℕ) (h : i < d.length) : dictGet? d d[i].1 = some d[i].2 := by
  induction d generalizing i with
  | nil => simp at h
  | cons p ps ih =>
    rcases p with ⟨pk, pv⟩
    rw [List.map_cons] at hnd
    rcases List.nodup_cons.mp hnd with ⟨hp, hps⟩
    match i with
    | 0 => simp [dictGet?, List.lookup_cons]
    | j + 1 =>
      have hj : j < ps.length := by simpa using h
      have hkey : ps[j].1 ∈ ps.map (fun q => q.1) :=
        List.mem_map.mpr ⟨ps[j], List.getElem_mem hj, rfl⟩
      have hne : ¬ ps[j].1 = pk := fun he => hp (he ▸ hkey)
      have hb : (ps[j].1 == pk) = false := beq_eq_false_iff_ne.mpr hne
      simpa [dictGet?, List.lookup_cons, hb] using ih hps j hj

/-! ### Numeric facts about `normSq`, `dot` and the float order -/

theorem normSq_nonneg (v : List ℚ) : 0 ≤ normSq v := by
  refine List.sum_nonneg ?_
  intro x hx
  rcases List.mem_map.mp hx with ⟨y, _, rfl⟩
  exact mul_self_nonneg y

theorem normSq_eq_zero_iff (v : List ℚ) : normSq v = 0 ↔ ∀ x ∈ v, x = 0 := by
  induction v with
  | nil => simp [normSq]
  | cons x xs ih =>
    have hx : 0 ≤ x * x := mul_self_nonneg x
    have hxs : 0 ≤ normSq xs := normSq_nonneg xs
    constructor
    · intro h
      have hsum : x * x + normSq xs = 0 := by simpa [normSq] using h
      have h1 : x * x = 0 := by nlinarith
      have h2 : normSq xs = 0 := by nlinarith
      intro y hy
      rcases List.mem_cons.mp hy with rfl | hy
      · exact mul_self_eq_zero.mp h1
      · exact ih.mp h2 y hy
    · intro h
      have h0 : x = 0 := h x (List.mem_cons_self x xs)
      have hrest : normSq xs = 0 := ih.mpr (fun y hy => h y (List.mem_cons_of_mem x hy))
      have : normSq (x :: xs) = x * x + normSq xs := by simp [normSq]
      rw [this, h0, hrest]
      ring

/-- When a row has zero norm its dot product with anything is zero: this is
why the numpy division produces `0/0 = NaN` (not `±inf`) on zero-norm rows. -/
theorem dot_eq_zero_of_normSq_left : ∀ (v w : List ℚ), normSq v = 0 → dot v w = 0
  | [], _, _ => by simp [dot]
  | _ :: _, [], _ => by simp [dot]
  | x :: xs, y :: ys, h => by
    have hall := (normSq_eq_zero_iff _).mp h
    have hx : x = 0 := hall x (List.mem_cons_self x xs)
    have hxs : normSq xs = 0 :=
      (normSq_eq_zero_iff xs).mpr (fun z hz => hall z (List.mem_cons_of_mem x hz))
    have hrec := dot_eq_zero_of_normSq_left xs ys hxs
    have hshape : dot (x :: xs) (y :: ys) = x * y + dot xs ys := by simp [dot]
    rw [hshape, hx, hrec]
    ring

/-- Same on the query side. -/
theorem dot_eq_zero_of_normSq_right : ∀ (v w : List ℚ), normSq w = 0 → dot v w = 0
  | [], _, _ => by simp [dot]
  | _ :: _, [], _ => by simp [dot]
  | x :: xs, y :: ys, h => by
    have hall := (normSq_eq_zero_iff _).mp h
    have hy : y = 0 := hall y (List.mem_cons_self y ys)
    have hys : normSq ys = 0 :=
      (normSq_eq_zero_iff ys).mpr (fun z hz => hall z (List.mem_cons_of_mem y hz))
    have hrec := dot_eq_zero_of_normSq_right xs ys hys
    have hshape : dot (x :: xs) (y :: ys) = x * y + dot xs ys := by simp [dot]
    rw [hshape, hy, hrec]
    ring

theorem simLE_total (a b : SimVal) : (simLE a b || simLE b a) = true := by
  cases a <;> cases b <;> simp [simLE, le_total]

theorem simLE_trans (a b c : SimVal) (hab : simLE a b = true)
    (hbc : simLE b c = true) : simLE a c = true := by
  cases a <;> cases b <;> cases c <;> simp_all [simLE]
  exact le_trans hab hbc

/-- On well-formed values (positive squared denominators), the symbolic
comparison `simLE` agrees exactly with the real-number order of the denoted
floats `a / √x` and `b / √y`: the symbolic model is faithful. -/
theorem simLE_correct (a b x y : ℚ) (hx : 0 < x) (hy : 0 < y) :
    (simLE (.val a x) (.val b y) = true) ↔
      ((a : ℝ) / Real.sqrt (x : ℝ) ≤ (b : ℝ) / Real.sqrt (y : ℝ)) := by
  have hxr : (0 : ℝ) < (x : ℝ) := by exact_mod_cast hx
  have hyr : (0 : ℝ) < (y : ℝ) := by exact_mod_cast hy
  have hsx : (0 : ℝ) < Real.sqrt (x : ℝ) := Real.sqrt_pos.mpr hxr
  have hsy : (0 : ℝ) < Real.sqrt (y : ℝ) := Real.sqrt_pos.mpr hyr
  have hsx2 : Real.sqrt (x : ℝ) ^ 2 = (x : ℝ) := Real.sq_sqrt hxr.le
  have hsy2 : Real.sqrt (y : ℝ) ^ 2 = (y : ℝ) := Real.sq_sqrt hyr.le
  have key : (ratKey a x ≤ ratKey b y) ↔
      ((a : ℝ) / Real.sqrt (x : ℝ) ≤ (b : ℝ) / Real.sqrt (y : ℝ)) := by
    rw [div_le_div_iff hsx hsy]
    rcases le_or_lt 0 a with ha | ha <;> rcases le_or_lt 0 b with hb | hb
    · -- both numerators nonnegative
      have har : (0 : ℝ) ≤ (a : ℝ) := by exact_mod_cast ha
      have hbr : (0 : ℝ) ≤ (b : ℝ) := by exact_mod_cast hb
      rw [ratKey, ratKey, if_pos ha, if_pos hb, div_le_div_iff hx hy]
      rw [show ((a ^ 2 * y ≤ b ^ 2 * x) ↔
        ((a : ℝ) ^ 2 * (y : ℝ) ≤ (b : ℝ) ^ 2 * (x : ℝ))) from by exact_mod_cast Iff.rfl]
      constructor
      · intro h
        nlinarith [mul_nonneg har hsy.le, mul_nonneg hbr hsx.le,
          Real.sqrt_nonneg (x : ℝ), Real.sqrt_nonneg (y : ℝ)]
      · intro h
        nlinarith [mul_nonneg har hsy.le, mul_nonneg hbr hsx.le]
    · -- a ≥ 0 > b : both sides false
      have har : (0 : ℝ) ≤ (a : ℝ) := by exact_mod_cast ha
      have hbr : (b : ℝ) < 0 := by exact_mod_cast hb
      have ha2 : (0 : ℚ) ≤ a ^ 2 / x := div_nonneg (sq_nonneg a) hx.le
      have hb2 : -(b ^ 2 / y) < 0 := by
        have hbsq : (0 : ℚ) < b ^ 2 := by nlinarith
        have : (0 : ℚ) < b ^ 2 / y := div_pos hbsq hy
        linarith
      rw [ratKey, ratKey, if_pos ha, if_neg (not_le.mpr hb)]
      constructor
      · intro h
        linarith
      · intro h
        nlinarith [mul_nonneg har hsy.le, mul_pos (neg_pos.mpr hbr) hsx]
    · -- b ≥ 0 > a : both sides true
      have har : (a : ℝ) < 0 := by exact_mod_cast ha
      have hbr : (0 : ℝ) ≤ (b : ℝ) := by exact_mod_cast hb
      have ha2 : -(a ^ 2 / x) < 0 := by
        have hasq : (0 : ℚ) < a ^ 2 := by nlinarith
        have : (0 : ℚ) < a ^ 2 / x := div_pos hasq hx
        linarith
      have hb2 : (0 : ℚ) ≤ b ^ 2 / y := div_nonneg (sq_nonneg b) hy.le
      rw [ratKey, ratKey, if_neg (not_le.mpr ha), if_pos hb]
      constructor
      · intro h
        nlinarith [mul_neg_of_neg_of_pos har hsy, mul_nonneg hbr hsx.le]
      · intro h
        linarith
    · -- both numerators negative
      have har : (a : ℝ) < 0 := by exact_mod_cast ha
      have hbr : (b : ℝ) < 0 := by exact_mod_cast hb
      rw [ratKey, ratKey, if_neg (not_le.mpr ha), if_neg (not_le.mpr hb)]
      rw [neg_le_neg_iff, div_le_div_iff hy hx]
      rw [show ((b ^ 2 * x ≤ a ^ 2 * y) ↔
        ((b : ℝ) ^ 2 * (x : ℝ) ≤ (a : ℝ) ^ 2 * (y : ℝ))) from by exact_mod_cast Iff.rfl]
      constructor
      · intro h
        nlinarith [mul_neg_of_neg_of_pos har hsy, mul_neg_of_neg_of_pos hbr hsx]
      · intro h
        nlinarith [mul_neg_of_neg_of_pos har hsy, mul_neg_of_neg_of_pos hbr hsx]
  simpa [simLE, decide_eq_true_iff] using key

/-- `cosineSim` yields `nan` exactly on the zero-denominator (zero-norm)
pairings. -/
theorem cosineSim_nan_iff (row q : List ℚ) :
    cosineSim row q = .nan ↔ normSq row * normSq q = 0 := by
  by_cases h : normSq row * normSq q = 0 <;> simp [cosineSim, h]

/-- The comparison the model of `np.argsort` performs between two in-range
similarities is exactly the real-number comparison of the cosine
similarities `dot/(‖r‖·‖q‖)` that numpy computes. -/
theorem simLE_models_cosine (r1 r2 q : List ℚ)
    (h1 : normSq r1 * normSq q ≠ 0) (h2 : normSq r2 * normSq q ≠ 0) :
    (simLE (cosineSim r1 q) (cosineSim r2 q) = true) ↔
      ((dot r1 q : ℝ) / (Real.sqrt (normSq r1 : ℝ) * Real.sqrt (normSq q : ℝ)) ≤
       (dot r2 q : ℝ) / (Real.sqrt (normSq r2 : ℝ) * Real.sqrt (normSq q : ℝ))) := by
  have hr1 : 0 < normSq r1 * normSq q :=
    lt_of_le_of_ne (mul_nonneg (normSq_nonneg r1) (normSq_nonneg q)) (Ne.symm h1)
  have hr2 : 0 < normSq r2 * normSq q :=
    lt_of_le_of_ne (mul_nonneg (normSq_nonneg r2) (normSq_nonneg q)) (Ne.symm h2)
  rw [cosineSim, if_neg h1, cosineSim, if_neg h2, simLE_correct _ _ _ _ hr1 hr2]
  have e1 : Real.sqrt ((normSq r1 * normSq q : ℚ) : ℝ) =
      Real.sqrt (normSq r1 : ℝ) * Real.sqrt (normSq q : ℝ) := by
    push_cast
    exact Real.sqrt_mul (by exact_mod_cast normSq_nonneg r1) _
  have e2 : Real.sqrt ((normSq r2 * normSq q : ℚ) : ℝ) =
      Real.sqrt (normSq r2 : ℝ) * Real.sqrt (normSq q : ℝ) := by
    push_cast
    exact Real.sqrt_mul (by exact_mod_cast normSq_nonneg r2) _
  rw [e1, e2]

/-! ### Injectivity of `f"{doc_id}_chunk_{i}"` in the chunk position -/

theorem decDigit_digitChar (m : ℕ) (h : m < 10) :
    decDigit (Nat.digitChar m) = m := by
  interval_cases m <;> rfl

theorem foldl_toDigitsCore (fuel n : ℕ) (ds : List Char) (h : n < fuel) :
    (Nat.toDigitsCore 10 fuel n ds).foldl (fun a c => 10 * a + decDigit c) 0 =
      ds.foldl (fun a c => 10 * a + decDigit c) n := by
  induction fuel generalizing n ds with
  | zero => omega
  | succ fuel ih =>
    rw [Nat.toDigitsCore]
    by_cases h0 : n / 10 = 0
    · rw [if_pos h0]
      rw [List.foldl_cons]
      have hlt : n % 10 < 10 := Nat.mod_lt n (by omega)
      rw [decDigit_digitChar _ hlt]
      have : n % 10 = n := by omega
      rw [Nat.mul_zero, Nat.zero_add, this]
    · rw [if_neg h0]
      have hlt : n / 10 < fuel := by omega
      rw [ih (n / 10) (Nat.digitChar (n % 10) :: ds) hlt]
      rw [List.foldl_cons]
      have hm : n % 10 < 10 := Nat.mod_lt n (by omega)
      rw [decDigit_digitChar _ hm]
      have : 10 * (n / 10) + n % 10 = n := by omega
      rw [this]

theorem decDigits_toDigits (n : ℕ) : decDigits (Nat.toDigits 10 n) = n := by
  rw [Nat.toDigits, decDigits, foldl_toDigitsCore (n + 1) n [] (Nat.lt_succ_self n)]
  rfl

theorem natRepr_inj (m n : ℕ) (h : Nat.repr m = Nat.repr n) : m = n := by
  have hdata : (Nat.toDigits 10 m) = (Nat.toDigits 10 n) := by
    have := congrArg String.data h
    simpa [Nat.repr, List.asString] using this
  have := congrArg decDigits hdata
  rwa [decDigits_toDigits, decDigits_toDigits] at this

theorem chunkId_inj (g : String) (i j : ℕ) (h : chunkId g i = chunkId g j) :
    i = j := by
  have hdata := congrArg String.data h
  simp only [chunkId, String.data_append] at hdata
  have h2 : (toString i).data = (toString j).data := List.append_cancel_left hdata
  have hts : toString i = toString j := String.ext h2
  exact natRepr_inj i j hts

/-! ### Facts about `_rebuild_index`, `_save`, `add` and `delete` -/

theorem rebuild_index_aligned (s : SimpleVectorStore) :
    IndexAligned s.rebuild_index := by
  rw [SimpleVectorStore.rebuild_index]
  by_cases h : s.documents.isEmpty
  · rw [if_pos h]
    have : s.documents = [] := List.isEmpty_iff.mp h
    constructor <;> simp [this, IndexAligned]
  · rw [if_neg h]
    constructor <;> simp [IndexAligned, h]

theorem save_fields (s : SimpleVectorStore) :
    s.save.documents = s.documents ∧ s.save.doc_ids = s.doc_ids ∧
      s.save.embeddings = s.embeddings := by
  simp [SimpleVectorStore.save]

theorem save_aligned (s : SimpleVectorStore) (h : IndexAligned s) :
    IndexAligned s.save := by
  rcases h with ⟨h1, h2⟩
  exact ⟨h1, h2⟩

/-- An aligned store has exactly one matrix row per stored record. -/
theorem aligned_rows_length (s : SimpleVectorStore) (h : IndexAligned s) :
    s.rows.length = s.documents.length := by
  rcases h with ⟨_, h2⟩
  by_cases he : s.documents.isEmpty
  · have : s.documents = [] := List.isEmpty_iff.mp he
    simp [SimpleVectorStore.rows, h2, he, this]
  · simp [SimpleVectorStore.rows, h2, he]

theorem addLoop_ok (embed : String → Except String (List ℚ)) (g : String)
    (md : Dict PyVal) (now : String) :
    ∀ (ts : List String) (i : ℕ) (docs : Dict Document),
      (∀ t ∈ ts, ∃ v, embed t = .ok v) →
      (addLoop embed g md now ts i docs).2.2 = none ∧
      (addLoop embed g md now ts i docs).2.1 = ts.length
  | [], _, _, _ => by simp [addLoop]
  | t :: ts, i, docs, hok => by
    rcases hok t (List.mem_cons_self t ts) with ⟨v, hv⟩
    have ih := addLoop_ok embed g md now ts (i + 1)
      (dictInsert docs (mkChunk g i t v md now).id (mkChunk g i t v md now))
      (fun u hu => hok u (List.mem_cons_of_mem t hu))
    rw [addLoop, hv]
    exact ⟨ih.1, by simp [ih.2]⟩

theorem addLoop_err (embed : String → Except String (List ℚ)) (g : String)
    (md : Dict PyVal) (now : String) :
    ∀ (ts : List String) (i : ℕ) (docs : Dict Document) (κ : String),
      (dictGet? docs κ).isSome = true →
      (dictGet? (addLoop embed g md now ts i docs).1 κ).isSome = true
  | [], _, _, _, h => by simpa [addLoop] using h
  | t :: ts, i, docs, κ, h => by
    rw [addLoop]
    cases hv : embed t with
    | error e => simpa [addLoop] using h
    | ok v =>
      refine addLoop_err embed g md now ts (i + 1) _ κ ?_
      by_cases hk : κ = (mkChunk g i t v md now).id
      · rw [hk, dictGet?_insert_self]
        rfl
      · rw [dictGet?_insert_ne _ _ _ _ hk]
        exact h

theorem addLoop_nodup (embed : String → Except String (List ℚ)) (g : String)
    (md : Dict PyVal) (now : String) :
    ∀ (ts : List String) (i : ℕ) (docs : Dict Document),
      (docs.map (fun p => p.1)).Nodup →
      ((addLoop embed g md now ts i docs).1.map (fun p => p.1)).Nodup
  | [], _, _, h => by simpa [addLoop] using h
  | t :: ts, i, docs, h => by
    rw [addLoop]
    cases hv : embed t with
    | error e => simpa [addLoop] using h
    | ok v =>
      exact addLoop_nodup embed g md now ts (i + 1) _
        (dictInsert_keys_nodup _ _ _ h)

theorem addLoop_preserve (embed : String → Except String (List ℚ)) (g : String)
    (md : Dict PyVal) (now : String) :
    ∀ (ts : List String) (i : ℕ) (docs : Dict Document) (κ : String),
      (∀ j : ℕ, κ ≠ chunkId g (i + j)) →
      dictGet? (addLoop embed g md now ts i docs).1 κ = dictGet? docs κ
  | [], _, _, _, _ => by simp [addLoop]
  | t :: ts, i, docs, κ, hκ => by
    rw [addLoop]
    cases hv : embed t with
    | error e => simp [addLoop]
    | ok v =>
      have hrec := addLoop_preserve embed g md now ts (i + 1)
        (dictInsert docs (mkChunk g i t v md now).id (mkChunk g i t v md now)) κ
        (fun j => by
          have := hκ (1 + j)
          simpa [Nat.add_assoc] using this)
      rw [hrec]
      exact dictGet?_insert_ne _ _ _ _ (by simpa [mkChunk] using hκ 0)

theorem addLoop_chunk_lookup (embed : String → Except String (List ℚ))
    (g : String) (md : Dict PyVal) (now : String) :
    ∀ (ts : List String) (i : ℕ) (docs : Dict Document),
      (∀ t ∈ ts, ∃ v, embed t = .ok v) →
      ∀ (j : ℕ) (hj : j < ts.length),
        ∃ v, embed ts[j] = .ok v ∧
          dictGet? (addLoop embed g md now ts i docs).1 (chunkId g (i + j)) =
            some (mkChunk g (i + j) ts[j] v md now)
  | [], _, _, _, j, hj => by simp at hj
  | t :: ts, i, docs, hok, j, hj => by
    rcases hok t (List.mem_cons_self t ts) with ⟨v, hv⟩
    rw [addLoop, hv]
    match j with
    | 0 =>
      refine ⟨v, by simpa using hv, ?_⟩
      have hpres := addLoop_preserve embed g md now ts (i + 1)
        (dictInsert docs (mkChunk g i t v md now).id (mkChunk g i t v md now))
        (chunkId g i)
        (fun j' => fun he => by
          have := chunkId_inj g i (i + 1 + j') he
          omega)
      simp only [Nat.add_zero]
      rw [hpres]
      have : (mkChunk g i t v md now).id = chunkId g i := rfl
      rw [← this, dictGet?_insert_self]
      simp
    | j' + 1 =>
      have hj' : j' < ts.length := by simpa using hj
      have hrec := addLoop_chunk_lookup embed g md now ts (i + 1)
        (dictInsert docs (mkChunk g i t v md now).id (mkChunk g i t v md now))
        (fun u hu => hok u (List.mem_cons_of_mem t hu)) j' hj'
      rcases hrec with ⟨w, hw, hlook⟩
      refine ⟨w, by simpa using hw, ?_⟩
      have harith : i + (j' + 1) = i + 1 + j' := by omega
      rw [harith]
      simpa using hlook

theorem add_ok_shape (s : SimpleVectorStore)
    (embed : String → Except String (List ℚ)) (g : String) (texts : List String)
    (md : Dict PyVal) (now : String)
    (hok : ∀ t ∈ texts, ∃ v, embed t = .ok v) :
    s.add embed g texts md now =
      (({ s with documents := (addLoop embed g md now texts 0 s.documents).1
        }).rebuild_index.save, .ok texts.length) := by
  rcases haux : addLoop embed g md now texts 0 s.documents with ⟨docs, added, err⟩
  have hch := addLoop_ok embed g md now texts 0 s.documents hok
  rw [haux] at hch
  rcases hch with ⟨h1, h2⟩
  simp only at h1 h2
  subst h1 h2
  rw [SimpleVectorStore.add, haux]

theorem add_err_shape (s : SimpleVectorStore)
    (embed : String → Except String (List ℚ)) (g : String) (texts : List String)
    (md : Dict PyVal) (now : String) (e : String)
    (herr : (s.add embed g texts md now).2 = .error e) :
    (s.add embed g texts md now).1 =
      { s with documents := (addLoop embed g md now texts 0 s.documents).1 } := by
  rcases haux : addLoop embed g md now texts 0 s.documents with ⟨docs, added, err⟩
  rw [SimpleVectorStore.add, haux]
  rw [SimpleVectorStore.add, haux] at herr
  match err, herr with
  | some e', _ => rfl

/-- After a successful `add`, the id list and matrix rows are realigned and a
snapshot is written: the store invariant holds. -/
theorem add_ok_aligned (s : SimpleVectorStore)
    (embed : String → Except String (List ℚ)) (g : String) (texts : List String)
    (md : Dict PyVal) (now : String) (n : ℕ)
    (h : (s.add embed g texts md now).2 = .ok n) :
    IndexAligned (s.add embed g texts md now).1 := by
  rcases haux : addLoop embed g md now texts 0 s.documents with ⟨docs, added, err⟩
  rw [SimpleVectorStore.add, haux] at h ⊢
  match err, h with
  | none, _ =>
    exact save_aligned _ (rebuild_index_aligned _)

theorem delete_aligned (s : SimpleVectorStore) (g : String)
    (h : IndexAligned s ∨ (s.delete_by_doc_id g).2 = true) :
    IndexAligned (s.delete_by_doc_id g).1 := by
  rw [SimpleVectorStore.delete_by_doc_id] at h ⊢
  by_cases hc : ((s.documents.filter (fun p => p.2.doc_id == g)).map (fun p => p.1)).isEmpty
  · rcases h with h | h
    · simpa [hc] using h
    · simp [hc] at h
  · simp only [hc, if_false, if_neg]
    exact save_aligned _ (rebuild_index_aligned _)

/-! ### Facts about `search` -/

theorem mem_argsort (sims : List SimVal) (i : ℕ) :
    i ∈ argsort sims ↔ i < sims.length := by
  rw [argsort, mem_sSort, List.mem_range]

theorem length_argsort (sims : List SimVal) :
    (argsort sims).length = sims.length := by
  rw [argsort, length_sSort, List.length_range]

theorem pySlice_sublist (k : ℤ) (l : List α) : List.Sublist (pySlice k l) l := by
  rw [pySlice]
  by_cases h : 0 ≤ k <;> simp [h, List.take_sublist]

theorem pySlice_all (k : ℤ) (l : List α) (h : (l.length : ℤ) ≤ k) :
    pySlice k l = l := by
  have h0 : 0 ≤ k := le_trans (by exact_mod_cast Nat.zero_le l.length) h
  rw [pySlice, if_pos h0]
  exact List.take_of_length_le (by omega)

theorem buildResults_eq (s : SimpleVectorStore) (sims : List SimVal) :
    ∀ (order : List ℕ),
      (s.documents.map (fun p => p.1)).Nodup →
      s.doc_ids = s.documents.map (fun p => p.1) →
      (∀ i ∈ order, i < s.documents.length) →
      buildResults s sims order = .ok (order.map (fun idx =>
        { content := (docAt s idx).content, metadata := (docAt s idx).metadata,
          similarity := sims.getD idx .nan }))
  | [], _, _, _ => by simp [buildResults]
  | idx :: rest, hnd, hid, hmem => by
    have hidx : idx < s.documents.length := hmem idx (List.mem_cons_self idx rest)
    have hid? : s.doc_ids.get? idx = some s.documents[idx].1 := by
      rw [hid, List.get?_eq_getElem?, List.getElem?_map,
        List.getElem?_eq_getElem hidx]
      rfl
    have hdoc : dictGet? s.documents s.documents[idx].1 = some s.documents[idx].2 :=
      dictGet?_getElem s.documents hnd idx hidx
    have hrec := buildResults_eq s sims rest hnd hid
      (fun i hi => hmem i (List.mem_cons_of_mem idx hi))
    have hdocAt : docAt s idx = s.documents[idx].2 := by
      rw [docAt, List.getD_eq_getElem?_getD, List.getElem?_eq_getElem hidx]
      rfl
    rw [buildResults]
    simp only [hid?, hdoc, hrec]
    simp [hdocAt]

theorem buildResults_sims (s : SimpleVectorStore) (sims : List SimVal) :
    ∀ (order : List ℕ) (res : List SearchResult),
      buildResults s sims order = .ok res →
      res.map (fun r => r.similarity) = order.map (fun i => sims.getD i .nan)
  | [], res, h => by
    simp only [buildResults, Except.ok.injEq] at h
    subst h
    rfl
  | idx :: rest, res, h => by
    rw [buildResults] at h
    cases hid : s.doc_ids.get? idx with
    | none =>
      simp only [hid] at h
      exact Except.noConfusion h
    | some key =>
      simp only [hid] at h
      cases hdoc : dictGet? s.documents key with
      | none =>
        simp only [hdoc] at h
        exact Except.noConfusion h
      | some doc =>
        simp only [hdoc] at h
        cases hrec : buildResults s sims rest with
        | error e =>
          simp only [hrec] at h
          exact Except.noConfusion h
        | ok rs =>
          simp only [hrec, Except.ok.injEq] at h
          have ih := buildResults_sims s sims rest rs hrec
          rw [← h]
          simp [ih]

theorem search_unfold (s : SimpleVectorStore)
    (embed : String → Except String (List ℚ)) (q : String) (qv : List ℚ)
    (k : ℤ) (rows : List (List ℚ)) (p : String × Document)
    (ps : List (String × Document))
    (hembed : s.embeddings = some rows) (hdocs : s.documents = p :: ps)
    (hq : embed q = .ok qv) :
    s.search embed q k =
      buildResults s (rows.map (fun r => cosineSim r qv))
        (pySlice k (argsort (rows.map (fun r => cosineSim r qv))).reverse) := by
  rw [SimpleVectorStore.search]
  simp only [hembed, hdocs, hq]

theorem search_ok_all (s : SimpleVectorStore)
    (embed : String → Except String (List ℚ)) (q : String) (qv : List ℚ)
    (k : ℤ) (hnd : (s.documents.map (fun p => p.1)).Nodup)
    (hal : IndexAligned s) (hq : embed q = .ok qv)
    (hk : (s.documents.length : ℤ) ≤ k) :
    ∃ res, s.search embed q k = .ok res ∧
      res.length = s.documents.length ∧
      ∀ i, i < s.documents.length →
        ∃ r ∈ res, r.content = (docAt s i).content ∧
          r.metadata = (docAt s i).metadata ∧
          r.similarity = cosineSim (docAt s i).embedding qv := by
  by_cases hemp : s.documents = []
  · refine ⟨[], ?_, by simp [hemp], by simp [hemp]⟩
    rw [SimpleVectorStore.search]
    cases he : s.embeddings <;> simp [hemp]
  · obtain ⟨p, ps, hdocs⟩ : ∃ p ps, s.documents = p :: ps := by
      cases hd : s.documents with
      | nil => exact absurd hd hemp
      | cons a as => exact ⟨a, as, rfl⟩
    have hne : ¬ s.documents.isEmpty := by simp [hdocs]
    have hembed : s.embeddings = some (s.documents.map (fun d => d.2.embedding)) := by
      rcases hal with ⟨_, h2⟩
      rw [h2, if_neg hne]
    set sims := (s.documents.map (fun d => d.2.embedding)).map
      (fun r => cosineSim r qv) with hsims
    have hslen : sims.length = s.documents.length := by simp [hsims]
    have hrevlen : (argsort sims).reverse.length = s.documents.length := by
      rw [List.length_reverse, length_argsort, hslen]
    have horder : pySlice k (argsort sims).reverse = (argsort sims).reverse :=
      pySlice_all _ _ (by rw [hrevlen]; exact hk)
    have hmemall : ∀ i ∈ (argsort sims).reverse, i < s.documents.length := by
      intro i hi
      rw [List.mem_reverse] at hi
      rw [← hslen]
      exact (mem_argsort sims i).mp hi
    have heq := search_unfold s embed q qv k _ p ps hembed hdocs hq
    rw [horder] at heq
    have hbuild := buildResults_eq s sims (argsort sims).reverse hnd hal.1 hmemall
    refine ⟨_, heq.trans hbuild, ?_, ?_⟩
    · rw [List.length_map, hrevlen]
    · intro i hi
      have himem : i ∈ (argsort sims).reverse := by
        rw [List.mem_reverse, mem_argsort, hslen]
        exact hi
      refine ⟨_, List.mem_map_of_mem _ himem, rfl, rfl, ?_⟩
      have hgetd : sims.getD i .nan = cosineSim (docAt s i).embedding qv := by
        have hilen : i < sims.length := by rw [hslen]; exact hi
        rw [List.getD_eq_getElem?_getD, List.getElem?_eq_getElem hilen]
        have : sims[i] = cosineSim (s.documents[i].2.embedding) qv := by
          simp [hsims]
        rw [Option.getD_some, this]
        have hda : docAt s i = s.documents[i].2 := by
          rw [docAt, List.getD_eq_getElem?_getD, List.getElem?_eq_getElem hi]
          rfl
        rw [hda]
      exact hgetd

theorem argsort_pairwise (sims : List SimVal) :
    (argsort sims).Pairwise
      (fun i j => simLE (sims.getD i .nan) (sims.getD j .nan) = true) := by
  rw [argsort]
  exact sSort_pairwise (fun i j => simLE (sims.getD i .nan) (sims.getD j .nan))
    (fun i j => simLE_total _ _)
    (fun i j l hij hjl => simLE_trans _ _ _ hij hjl)
    (List.range sims.length)

/-- Every successful `search` returns its results in descending float order
(`nan`, which numpy places last ascending, comes first after the reversal). -/
theorem search_results_sorted (s : SimpleVectorStore)
    (embed : String → Except String (List ℚ)) (q : String) (k : ℤ)
    (res : List SearchResult) (h : s.search embed q k = .ok res) :
    res.Pairwise (fun a b => simLE b.similarity a.similarity = true) := by
  rw [SimpleVectorStore.search] at h
  cases he : s.embeddings with
  | none =>
    simp only [he, Except.ok.injEq] at h
    subst h
    exact List.Pairwise.nil
  | some rows =>
    cases hd : s.documents with
    | nil =>
      simp only [he, hd, Except.ok.injEq] at h
      subst h
      exact List.Pairwise.nil
    | cons p ps =>
      cases hq : embed q with
      | error e =>
        simp only [he, hd, hq] at h
        exact Except.noConfusion h
      | ok qv =>
        simp only [he, hd, hq] at h
        set sims := rows.map (fun r => cosineSim r qv) with hsims
        have hmap := buildResults_sims s sims _ res h
        have hasc := argsort_pairwise sims
        have hdesc : ((argsort sims).reverse).Pairwise
            (fun i j => simLE (sims.getD j .nan) (sims.getD i .nan) = true) := by
          rw [List.pairwise_reverse]
          exact hasc
        have hord : (pySlice k (argsort sims).reverse).Pairwise
            (fun i j => simLE (sims.getD j .nan) (sims.getD i .nan) = true) :=
          List.Pairwise.sublist (pySlice_sublist _ _) hdesc
        have hmapped : ((pySlice k (argsort sims).reverse).map
            (fun i => sims.getD i .nan)).Pairwise
              (fun x y => simLE y x = true) :=
          List.pairwise_map.mpr hord
        rw [← hmap] at hmapped
        exact List.pairwise_map.mp hmapped

/-! ### Facts about `_load` and `get_document_content` -/

theorem rebuild_index_documents (s : SimpleVectorStore) :
    s.rebuild_index.documents = s.documents := by
  rw [SimpleVectorStore.rebuild_index]
  by_cases h : s.documents.isEmpty <;> simp [h]

theorem save_documents (s : SimpleVectorStore) :
    s.save.documents = s.documents := rfl

theorem loadState_parsed (items : List RawItem) (s : SimpleVectorStore)
    (logged : Bool) (h : loadState (.parsed items) = (s, logged)) :
    s.documents = (loadLoop items []).1 ∧ logged = (loadLoop items []).2 ∧
      (logged = false → IndexAligned s) ∧
      (logged = true → s.embeddings = none ∧ s.doc_ids = []) := by
  rw [loadState] at h
  rcases hL : loadLoop items [] with ⟨docs, b⟩
  rw [hL] at h
  cases b with
  | false =>
    simp only [Prod.mk.injEq] at h
    rcases h with ⟨hs, hb⟩
    subst hs hb
    refine ⟨?_, rfl, fun _ => rebuild_index_aligned _, fun hc => by simp at hc⟩
    rw [rebuild_index_documents]
  | true =>
    simp only [Prod.mk.injEq] at h
    rcases h with ⟨hs, hb⟩
    subst hs hb
    exact ⟨rfl, rfl, fun hc => by simp at hc, fun _ => ⟨rfl, rfl⟩⟩

/-! ## Claim theorems -/

/-- C8: for a groupId present in the store, `get_document_content` returns
its chunks sorted by `chunk_index` ascending regardless of storage order
(the returned chunk list is a sorted permutation of the group's
`(chunk_index, content)` pairs), with `chunks` equal to the number of member
records and `full_content` the chunk contents joined by a blank line; for an
absent groupId it returns `None` rather than raising. -/
theorem get_document_content_spec (s : SimpleVectorStore) (g : String) :
    ((∀ p ∈ s.documents, ¬ p.2.doc_id = g) →
      s.get_document_content g = none) ∧
    ((∃ p ∈ s.documents, p.2.doc_id = g) →
      ∃ out, s.get_document_content g = some out) ∧
    (∀ out, s.get_document_content g = some out →
      out.chunks_detail.Pairwise (fun a b => a.1 ≤ b.1) ∧
      out.chunks =
        ((s.documents.map (fun p => p.2)).filter (fun d => d.doc_id == g)).length ∧
      List.Perm out.chunks_detail
        (((s.documents.map (fun p => p.2)).filter (fun d => d.doc_id == g)).map
          (fun d => (chunkIndexOf d.metadata, d.content))) ∧
      out.full_content =
        String.intercalate "\n\n" (out.chunks_detail.map (fun c => c.2))) := by
  refine ⟨?_, ?_, ?_⟩
  · intro habs
    have hnil : (s.documents.map (fun p => p.2)).filter (fun d => d.doc_id == g) = [] := by
      rw [List.filter_eq_nil_iff]
      intro d hd
      rcases List.mem_map.mp hd with ⟨p, hp, rfl⟩
      simpa using habs p hp
    rw [SimpleVectorStore.get_document_content]
    simp only [hnil, List.head?_nil]
  · intro hex
    rcases hex with ⟨p, hp, hpg⟩
    have hmem : p.2 ∈ (s.documents.map (fun q => q.2)).filter (fun d => d.doc_id == g) := by
      rw [List.mem_filter]
      exact ⟨List.mem_map_of_mem _ hp, by simpa using hpg⟩
    cases hh : ((s.documents.map (fun q => q.2)).filter (fun d => d.doc_id == g)).head? with
    | none =>
      rw [List.head?_eq_none_iff] at hh
      rw [hh] at hmem
      simp at hmem
    | some first =>
      have hsome : (s.get_document_content g).isSome = true := by
        rw [SimpleVectorStore.get_document_content]
        simp only [hh]
        rfl
      exact Option.isSome_iff_exists.mp hsome
  · intro out hout
    rw [SimpleVectorStore.get_document_content] at hout
    cases hh : ((s.documents.map (fun q => q.2)).filter (fun d => d.doc_id == g)).head? with
    | none =>
      rw [hh] at hout
      exact Option.noConfusion hout
    | some first =>
      rw [hh] at hout
      have hfields := (Option.some.injEq _ _).mp hout
      subst hfields
      refine ⟨?_, ?_, ?_, rfl⟩
      · have hpw := sSort_pairwise (fun a b : ℤ × String => decide (a.1 ≤ b.1))
          (fun a b => by simpa using le_total a.1 b.1)
          (fun a b c hab hbc => by
            simp only [decide_eq_true_iff] at hab hbc ⊢
            exact le_trans hab hbc)
          (((s.documents.map (fun q => q.2)).filter (fun d => d.doc_id == g)).map
            (fun d => (chunkIndexOf d.metadata, d.content)))
        exact hpw.imp (fun h => by simpa using h)
      · rw [length_sSort, List.length_map]
      · exact sSort_perm _ _

/-- C9: the degraded-fallback embedding is deterministic: for every input
text it reseeds the generator from a stable hash of that text alone
(`md5(text) % 2^32`) and draws a 384-value vector, so its output is
independent of the incoming generator state (i.e. of any calls made
before), and two calls with the same text produce the identical vector. -/
theorem fallback_embedding_deterministic (RngState : Type) (md5 : String → ℕ)
    (seedFn : ℕ → RngState) (randn : RngState → ℕ → List ℚ × RngState)
    (text : String) (rng1 rng2 : RngState) :
    (getEmbedding RngState md5 seedFn randn none text rng1).1 =
      (getEmbedding RngState md5 seedFn randn none text rng2).1 ∧
    (getEmbedding RngState md5 seedFn randn none text rng1).1 =
      (randn (seedFn (md5 text % 2 ^ 32)) 384).1 :=
  ⟨rfl, rfl⟩

/-- C3 counterexample: `_save` issues a single direct write to
`documents.json` (no temporary file, no rename), so a crash at the start of
that write — after `open(..., "w")` truncated the file — leaves the snapshot
empty: neither the previous durable snapshot `"OLD-SNAPSHOT"` nor the new
payload survives. -/
theorem save_crash_counterexample :
    saveOps storeAB "./data/vector_store" =
      [FsOp.write (dataFilePath "./data/vector_store")
        (dumpDocs (storeAB.documents.map (fun q => q.2)))] ∧
    applyCrash [(dataFilePath "./data/vector_store", "OLD-SNAPSHOT")]
        (saveOps storeAB "./data/vector_store") 0 0 =
      [(dataFilePath "./data/vector_store", "")] ∧
    ("" : String) ≠ "OLD-SNAPSHOT" ∧
    ("" : String) ≠ dumpDocs (storeAB.documents.map (fun q => q.2)) := by
  refine ⟨rfl, ?_, ?_, ?_⟩ <;> with_unfolding_all decide

/-- C3 amended: every completed save does write the entire current record
set — the snapshot file ends up holding the serialization of every record,
in order — but it does so by writing directly to the final path: the write
trace is not a temporary-file-plus-swap, so interrupted writes are not
protected (see the counterexample). -/
theorem save_direct_write_full (s : SimpleVectorStore) (p : String)
    (fs : FileSys) :
    applyOps fs (saveOps s p) =
      dictInsert fs (dataFilePath p) (dumpDocs (s.documents.map (fun q => q.2))) ∧
    dictGet? (applyOps fs (saveOps s p)) (dataFilePath p) =
      some (dumpDocs (s.documents.map (fun q => q.2))) := by
  constructor
  · rfl
  · exact dictGet?_insert_self fs (dataFilePath p) _

/-- C2 counterexample: two records inserted in the order `A`, `B` with
identical embeddings get identical similarities, yet `search` returns the
later-inserted `B` first: `np.argsort(...)[::-1]` puts ties in reverse
insertion order, not insertion order. -/
theorem search_tie_counterexample :
    storeAB.doc_ids = ["g_chunk_0", "g_chunk_1"] ∧
    storeAB.search embedOne "q" 3 =
      .ok [⟨"B", [("chunk_index", .vInt 1)], .val 1 1⟩,
           ⟨"A", [("chunk_index", .vInt 0)], .val 1 1⟩] := by
  constructor <;> with_unfolding_all decide

/-- C2 amended: every successful `search` returns results sorted descending
by the float similarity order (with `NaN` treated as largest, as numpy's
sort does), and identical inputs on identical stores give identical result
sequences; but ties between equal similarities are broken by REVERSE
insertion order (the ascending stable argsort is reversed), not by insertion
order — see the counterexample. -/
theorem search_sorted_deterministic (s1 s2 : SimpleVectorStore)
    (embed : String → Except String (List ℚ)) (q : String) (k : ℤ)
    (res1 res2 : List SearchResult) (h1 : s1.search embed q k = .ok res1)
    (h2 : s2.search embed q k = .ok res2) (hs : s1 = s2) :
    res1.Pairwise (fun a b => simLE b.similarity a.similarity = true) ∧
    res1 = res2 := by
  subst hs
  refine ⟨search_results_sorted s1 embed q k res1 h1, ?_⟩
  have := h1.symm.trans h2
  simpa using this

/-- C2 witness: the amended sortedness and determinism at the concrete
two-record store. -/
theorem search_sorted_deterministic_witness :
    ([⟨"B", [("chunk_index", .vInt 1)], .val 1 1⟩,
      ⟨"A", [("chunk_index", .vInt 0)], .val 1 1⟩] : List SearchResult).Pairwise
        (fun a b => simLE b.similarity a.similarity = true) ∧
    ([⟨"B", [("chunk_index", .vInt 1)], .val 1 1⟩,
      ⟨"A", [("chunk_index", .vInt 0)], .val 1 1⟩] : List SearchResult) =
    ([⟨"B", [("chunk_index", .vInt 1)], .val 1 1⟩,
      ⟨"A", [("chunk_index", .vInt 0)], .val 1 1⟩] : List SearchResult) :=
  search_sorted_deterministic storeAB storeAB embedOne "q" 3 _ _
    (by with_unfolding_all decide) (by with_unfolding_all decide) rfl

/-- C7: `search` on a store with zero records returns `[]` without error for
every integer `top_k` (negative included), and with an aligned index, a
successful query embedding and `top_k` exceeding the record count it returns
all records, fully ranked: one result per stored record, carrying that
record's content, metadata and cosine similarity. -/
theorem search_empty_and_clamped :
    (∀ (s : SimpleVectorStore) (embed : String → Except String (List ℚ))
      (q : String) (k : ℤ), s.documents = [] → s.search embed q k = .ok []) ∧
    (∀ (s : SimpleVectorStore) (embed : String → Except String (List ℚ))
      (q : String) (qv : List ℚ) (k : ℤ),
      (s.documents.map (fun p => p.1)).Nodup → IndexAligned s →
      embed q = .ok qv → (s.documents.length : ℤ) < k →
      ∃ res, s.search embed q k = .ok res ∧
        res.length = s.documents.length ∧
        ∀ i, i < s.documents.length →
          ∃ r ∈ res, r.content = (docAt s i).content ∧
            r.metadata = (docAt s i).metadata ∧
            r.similarity = cosineSim (docAt s i).embedding qv) := by
  constructor
  · intro s embed q k hemp
    rw [SimpleVectorStore.search]
    cases he : s.embeddings <;> simp [hemp]
  · intro s embed q qv k hnd hal hq hk
    exact search_ok_all s embed q qv k hnd hal hq (le_of_lt hk)

/-- C7 witness: the empty store returns `[]` even for a negative `top_k`,
and `top_k = 9` on the two-record store returns both records ranked. -/
theorem search_empty_and_clamped_witness :
    emptyStore.search embedOne "q" (-5) = .ok [] ∧
    (∃ res, storeAB.search embedOne "q" 9 = .ok res ∧
      res.length = storeAB.documents.length ∧
      ∀ i, i < storeAB.documents.length →
        ∃ r ∈ res, r.content = (docAt storeAB i).content ∧
          r.metadata = (docAt storeAB i).metadata ∧
          r.similarity = cosineSim (docAt storeAB i).embedding [1]) :=
  ⟨search_empty_and_clamped.1 emptyStore embedOne "q" (-5) rfl,
   search_empty_and_clamped.2 storeAB embedOne "q" [1] 9
     (by with_unfolding_all decide)
     ⟨by with_unfolding_all decide, by with_unfolding_all decide⟩
     rfl (by with_unfolding_all decide)⟩

/-- C1 counterexample: a stored record whose embedding is the zero vector
makes `search` report the similarity `NaN` (the IEEE result of the `0/0` the
code computes), which is a non-numeric value and in particular is not the
number `0` the claim requires. -/
theorem search_zero_norm_counterexample :
    storeZero.search embedOne "q" 3 = .ok [⟨"c", [], SimVal.nan⟩] ∧
    SimVal.nan ≠ SimVal.val 0 1 := by
  constructor <;> with_unfolding_all decide

/-- C1 amended: `search` does not raise on zero-norm pairings — it returns a
result for the zero-norm record — but the similarity it reports for that
record is `NaN` (from the unguarded `0/0` division), not `0`. -/
theorem search_zero_norm_nan (s : SimpleVectorStore)
    (embed : String → Except String (List ℚ)) (q : String) (qv : List ℚ)
    (k : ℤ) (hnd : (s.documents.map (fun p => p.1)).Nodup)
    (hal : IndexAligned s) (hq : embed q = .ok qv)
    (hk : (s.documents.length : ℤ) ≤ k) (i : ℕ)
    (hi : i < s.documents.length)
    (hz : (∀ x ∈ (docAt s i).embedding, x = 0) ∨ (∀ x ∈ qv, x = 0)) :
    ∃ res, s.search embed q k = .ok res ∧
      ∃ r ∈ res, r.content = (docAt s i).content ∧
        r.similarity = SimVal.nan := by
  obtain ⟨res, hok, _, hcov⟩ := search_ok_all s embed q qv k hnd hal hq hk
  obtain ⟨r, hr, hc, _, hsim⟩ := hcov i hi
  refine ⟨res, hok, r, hr, hc, ?_⟩
  have hzero : normSq (docAt s i).embedding * normSq qv = 0 := by
    rcases hz with hz | hz
    · rw [(normSq_eq_zero_iff _).mpr hz, zero_mul]
    · rw [(normSq_eq_zero_iff _).mpr hz, mul_zero]
  rw [hsim, cosineSim, if_pos hzero]

/-- C1 witness: the amended statement evaluated on the one-record store
whose embedding is the zero vector. -/
theorem search_zero_norm_nan_witness :
    ∃ res, storeZero.search embedOne "q" 3 = .ok res ∧
      ∃ r ∈ res, r.content = (docAt storeZero 0).content ∧
        r.similarity = SimVal.nan :=
  search_zero_norm_nan storeZero embedOne "q" [1] 3
    (by with_unfolding_all decide)
    ⟨by with_unfolding_all decide, by with_unfolding_all decide⟩
    rfl (by with_unfolding_all decide) 0 (by with_unfolding_all decide)
    (Or.inl (by with_unfolding_all decide))

/-- C4 counterexample: when embedding fails on the second chunk of a batch,
`add` raises — but the record for the first chunk has already been inserted
into the in-memory record set, so the store is NOT left exactly as before
the call. -/
theorem add_partial_counterexample :
    (emptyStore.add embedFailB "g" ["A", "B"] [] "t").2 = .error "boom" ∧
    (emptyStore.add embedFailB "g" ["A", "B"] [] "t").1.documents ≠
      emptyStore.documents := by
  constructor <;> with_unfolding_all decide

/-- C4 amended: if no embedding fails, `add` returns the number of texts;
if embedding fails, the call fails and the index, id list and snapshot are
untouched and no stored key disappears — but the chunks processed before the
failure remain committed to the in-memory record set (see the
counterexample), so the store is not left exactly as before the call. -/
theorem add_failure_partial_commit :
    (∀ (s : SimpleVectorStore) (embed : String → Except String (List ℚ))
      (g : String) (texts : List String) (md : Dict PyVal) (now : String),
      (∀ t ∈ texts, ∃ v, embed t = .ok v) →
      (s.add embed g texts md now).2 = .ok texts.length) ∧
    (∀ (s : SimpleVectorStore) (embed : String → Except String (List ℚ))
      (g : String) (texts : List String) (md : Dict PyVal) (now : String)
      (e : String),
      (s.add embed g texts md now).2 = .error e →
      (s.add embed g texts md now).1.embeddings = s.embeddings ∧
      (s.add embed g texts md now).1.doc_ids = s.doc_ids ∧
      (s.add embed g texts md now).1.disk = s.disk ∧
      ∀ κ, (dictGet? s.documents κ).isSome = true →
        (dictGet? (s.add embed g texts md now).1.documents κ).isSome = true) := by
  constructor
  · intro s embed g texts md now hok
    rw [add_ok_shape s embed g texts md now hok]
  · intro s embed g texts md now e herr
    have hshape := add_err_shape s embed g texts md now e herr
    rw [hshape]
    exact ⟨rfl, rfl, rfl, fun κ hκ => addLoop_err embed g md now texts 0 s.documents κ hκ⟩

/-- C4 witness: both parts at concrete inputs — a fully successful batch
returns its length, and the failing batch leaves index, ids and snapshot
untouched while preserving the (empty) key set. -/
theorem add_failure_partial_commit_witness :
    (emptyStore.add embedOne "g" ["A", "B"] [] "t").2 = .ok 2 ∧
    ((emptyStore.add embedFailB "g" ["A", "B"] [] "t").1.embeddings =
        emptyStore.embeddings ∧
      (emptyStore.add embedFailB "g" ["A", "B"] [] "t").1.doc_ids =
        emptyStore.doc_ids ∧
      (emptyStore.add embedFailB "g" ["A", "B"] [] "t").1.disk =
        emptyStore.disk ∧
      ∀ κ, (dictGet? emptyStore.documents κ).isSome = true →
        (dictGet? (emptyStore.add embedFailB "g" ["A", "B"] [] "t").1.documents
          κ).isSome = true) :=
  ⟨add_failure_partial_commit.1 emptyStore embedOne "g" ["A", "B"] [] "t"
      (fun t _ => ⟨[1], rfl⟩),
   add_failure_partial_commit.2 emptyStore embedFailB "g" ["A", "B"] [] "t"
      "boom" (by with_unfolding_all decide)⟩

/-- C5 counterexample: loading a snapshot whose second array entry is
malformed retains the first record in the in-memory record set — the store
is not empty after the logged failure. -/
theorem load_partial_counterexample :
    (loadState (.parsed [.okItem docGood, .badItem])).1.documents =
      [("a", docGood)] ∧
    (loadState (.parsed [.okItem docGood, .badItem])).2 = true ∧
    [("a", docGood)] ≠ ([] : Dict Document) := by
  refine ⟨?_, ?_, ?_⟩ <;> with_unfolding_all decide

/-- C5 amended: with no snapshot the store starts empty without logging;
with an unreadable snapshot (JSON parse failure) the failure is logged and
the store starts empty; and `_load` never raises (it is a total function).
But when the snapshot parses and a malformed record appears mid-array, the
records decoded before it are retained in the record set while the index
stays empty — the error is logged, yet the store is not empty. -/
theorem load_behavior :
    loadState .noFile = (emptyStore, false) ∧
    loadState .badJson = (emptyStore, true) ∧
    (∀ (items : List RawItem) (s : SimpleVectorStore) (logged : Bool),
      loadState (.parsed items) = (s, logged) →
      s.documents = (loadLoop items []).1 ∧ logged = (loadLoop items []).2 ∧
      (logged = false → IndexAligned s) ∧
      (logged = true → s.embeddings = none ∧ s.doc_ids = [])) :=
  ⟨rfl, rfl, fun items s logged h => loadState_parsed items s logged h⟩

/-- C5 witness: the parsed-snapshot characterisation evaluated on the
concrete one-good-one-bad snapshot. -/
theorem load_behavior_witness :
    storeCorrupt.documents =
      (loadLoop [.okItem docGood, .badItem] []).1 ∧
    true = (loadLoop [.okItem docGood, .badItem] []).2 ∧
    (true = false → IndexAligned storeCorrupt) ∧
    (true = true → storeCorrupt.embeddings = none ∧ storeCorrupt.doc_ids = []) :=
  load_behavior.2.2 [.okItem docGood, .badItem] storeCorrupt true
    (by with_unfolding_all decide)

/-- C6 counterexample: the store loaded from a partially corrupt snapshot
holds one record but zero index rows; deleting an unknown group on it
completes (returns `False`, no exception, state unchanged) and leaves the
record count and index row count different — the invariant does not hold
after this completed delete. -/
theorem noop_delete_misaligned_counterexample :
    storeCorrupt.delete_by_doc_id "zzz" = (storeCorrupt, false) ∧
    storeCorrupt.documents.length = 1 ∧
    storeCorrupt.rows.length = 0 := by
  refine ⟨?_, ?_, ?_⟩ <;> with_unfolding_all decide

/-- C6 amended: after every successful `add`, and after every `delete` that
either removed something or started from an aligned store, the id list
matches the dict keys, the matrix rows are the embeddings in that same
order, and the row count equals the record count.  (A no-op delete on a
store already in violation — reachable via a partially corrupt snapshot —
preserves the violation, see the counterexample.) -/
theorem mutation_alignment :
    (∀ (s : SimpleVectorStore) (embed : String → Except String (List ℚ))
      (g : String) (texts : List String) (md : Dict PyVal) (now : String)
      (n : ℕ), (s.add embed g texts md now).2 = .ok n →
      IndexAligned (s.add embed g texts md now).1 ∧
      (s.add embed g texts md now).1.rows.length =
        (s.add embed g texts md now).1.documents.length) ∧
    (∀ (s : SimpleVectorStore) (g : String),
      (IndexAligned s ∨ (s.delete_by_doc_id g).2 = true) →
      IndexAligned (s.delete_by_doc_id g).1 ∧
      (s.delete_by_doc_id g).1.rows.length =
        (s.delete_by_doc_id g).1.documents.length) := by
  constructor
  · intro s embed g texts md now n h
    have hal := add_ok_aligned s embed g texts md now n h
    exact ⟨hal, aligned_rows_length _ hal⟩
  · intro s g h
    have hal := delete_aligned s g h
    exact ⟨hal, aligned_rows_length _ hal⟩

/-- C6 witness: alignment after the concrete successful `add` and after the
concrete group deletion. -/
theorem mutation_alignment_witness :
    (IndexAligned (emptyStore.add embedOne "g" ["A", "B"] [] "t").1 ∧
      (emptyStore.add embedOne "g" ["A", "B"] [] "t").1.rows.length =
        (emptyStore.add embedOne "g" ["A", "B"] [] "t").1.documents.length) ∧
    (IndexAligned (storeAB.delete_by_doc_id "g").1 ∧
      (storeAB.delete_by_doc_id "g").1.rows.length =
        (storeAB.delete_by_doc_id "g").1.documents.length) :=
  ⟨mutation_alignment.1 emptyStore embedOne "g" ["A", "B"] [] "t" 2
      (by with_unfolding_all decide),
   mutation_alignment.2 storeAB "g"
      (Or.inr (by with_unfolding_all decide))⟩

/-- C10: re-adding a group that is already present does not fail and does
not duplicate records: with a working embedder, `add(g, texts, md)` returns
`len(texts)`, keeps the key set duplicate-free, and afterwards the record
stored under `g_chunk_i` is exactly the new chunk built from `texts[i]` —
silently replacing any previous record with that id. -/
theorem add_same_group_replaces (s : SimpleVectorStore)
    (embed : String → Except String (List ℚ)) (g : String)
    (texts : List String) (md : Dict PyVal) (now : String)
    (hok : ∀ t ∈ texts, ∃ v, embed t = .ok v)
    (hnd : (s.documents.map (fun p => p.1)).Nodup) :
    (s.add embed g texts md now).2 = .ok texts.length ∧
    (((s.add embed g texts md now).1.documents.map (fun p => p.1)).Nodup) ∧
    ∀ (j : ℕ) (hj : j < texts.length), ∃ v, embed texts[j] = .ok v ∧
      dictGet? (s.add embed g texts md now).1.documents (chunkId g j) =
        some (mkChunk g j texts[j] v md now) := by
  have hshape := add_ok_shape s embed g texts md now hok
  have hdocs : (s.add embed g texts md now).1.documents =
      (addLoop embed g md now texts 0 s.documents).1 := by
    rw [hshape, save_documents, rebuild_index_documents]
  refine ⟨by rw [hshape], ?_, ?_⟩
  · rw [hdocs]
    exact addLoop_nodup embed g md now texts 0 s.documents hnd
  · intro j hj
    obtain ⟨v, hv, hlook⟩ :=
      addLoop_chunk_lookup embed g md now texts 0 s.documents hok j hj
    refine ⟨v, hv, ?_⟩
    rw [hdocs]
    simpa using hlook

/-- C10 witness: re-adding group `"g"` (already present in `storeAB`) with a
single new text succeeds, keeps keys unique, and stores the new chunk under
`g_chunk_0`. -/
theorem add_same_group_replaces_witness :
    (storeAB.add embedOne "g" ["C"] [] "t2").2 = .ok 1 ∧
    (((storeAB.add embedOne "g" ["C"] [] "t2").1.documents.map
      (fun p => p.1)).Nodup) ∧
    ∀ (j : ℕ) (hj : j < ["C"].length), ∃ v, embedOne ["C"][j] = .ok v ∧
      dictGet? (storeAB.add embedOne "g" ["C"] [] "t2").1.documents
          (chunkId "g" j) =
        some (mkChunk "g" j ["C"][j] v [] "t2") :=
  add_same_group_replaces storeAB embedOne "g" ["C"] [] "t2"
    (fun t _ => ⟨[1], rfl⟩) (by with_unfolding_all decide)

/-- C8 witness: the three parts of the `get_document_content`
specification evaluated on the two-record store — an unknown group returns
`None`, the present group returns a result, and the concrete result is
sorted, counted and joined as specified. -/
theorem get_document_content_spec_witness :
    storeAB.get_document_content "zzz" = none ∧
    (∃ out, storeAB.get_document_content "g" = some out) ∧
    ((⟨"g", "Unknown", 2, "A\n\nB", [(0, "A"), (1, "B")]⟩ :
        DocContent).chunks_detail.Pairwise (fun a b => a.1 ≤ b.1) ∧
      (⟨"g", "Unknown", 2, "A\n\nB", [(0, "A"), (1, "B")]⟩ :
        DocContent).chunks =
        ((storeAB.documents.map (fun p => p.2)).filter
          (fun d => d.doc_id == "g")).length ∧
      List.Perm (⟨"g", "Unknown", 2, "A\n\nB", [(0, "A"), (1, "B")]⟩ :
          DocContent).chunks_detail
        (((storeAB.documents.map (fun p => p.2)).filter
          (fun d => d.doc_id == "g")).map
            (fun d => (chunkIndexOf d.metadata, d.content))) ∧
      (⟨"g", "Unknown", 2, "A\n\nB", [(0, "A"), (1, "B")]⟩ :
        DocContent).full_content =
        String.intercalate "\n\n"
          ((⟨"g", "Unknown", 2, "A\n\nB", [(0, "A"), (1, "B")]⟩ :
            DocContent).chunks_detail.map (fun c => c.2))) :=
  ⟨(get_document_content_spec storeAB "zzz").1 (by with_unfolding_all decide),
   (get_document_content_spec storeAB "g").2.1 (by with_unfolding_all decide),
   (get_document_content_spec storeAB "g").2.2
     ⟨"g", "Unknown", 2, "A\n\nB", [(0, "A"), (1, "B")]⟩
     (by with_unfolding_all decide)⟩
